import Mathlib

/-!
Verification development for the Logic-Circuit-Simulator propagation core.

The TypeScript sources are shallowly embedded: each relevant function is
translated into an executable Lean definition over an inductive four-valued
signal domain.  Values that live in `utils.ts` / `drawutils.ts` /
`FlipflopOrLatch.ts` (files absent from the source tree) are modelled from the
specification and marked as such in their doc comments.
-/

/-- The four-valued signal domain `LogicValue` from the spec (§3):
`false`, `true`, `Unknown` (indeterminate), `HighImpedance` (undriven).
Constructors: `fls` = false, `tru` = true, `unk` = Unknown, `hiZ` = HighImpedance. -/
inductive LogicValue where
  | fls
  | tru
  | unk
  | hiZ
deriving DecidableEq, Repr, Fintype

/-- `isUnknown` from utils.ts: tests for the `Unknown` sentinel.
Modelled from the spec: utils.ts is not in the source tree; the spec defines
`Unknown` as a distinct member of the four-valued domain. -/
def isUnknown (v : LogicValue) : Bool := v = .unk

/-- `isHighImpedance` from utils.ts: tests for the `HighImpedance` sentinel.
Modelled from the spec: utils.ts is not in the source tree. -/
def isHighImpedance (v : LogicValue) : Bool := v = .hiZ

/-- A value is indeterminate when it is `Unknown` or `HighImpedance` (spec §4.1). -/
def isIndeterminate (v : LogicValue) : Bool := isUnknown v || isHighImpedance v

namespace ALU

/-- The four ALU operations (`ALUOp` in ALU.ts). -/
inductive Op where
  | add
  | sub
  | andOp
  | orOp
deriving DecidableEq, Repr

/-- The `op` getter of `ALU` (ALU.ts lines 138-168): decodes the two opcode
input bits (`op1` = input Op[1], the high bit; `op0` = input Op[0], the low
bit) into an operation, or `none` (= `Unknown`) if an opcode bit is
`Unknown` or `HighImpedance`. -/
def op (op1 op0 : LogicValue) : Option Op :=
  match op1 with
  | .fls =>
    match op0 with
    | .fls => some .add
    | .tru => some .sub
    | .unk => none
    | .hiZ => none
  | .tru =>
    match op0 with
    | .fls => some .orOp
    | .tru => some .andOp
    | .unk => none
    | .hiZ => none
  | .unk => none
  | .hiZ => none

/-- `asNumber` inside `sum3bits` (ALU.ts line 200): `v === true ? 1 : 0`. -/
def asNumber (v : LogicValue) : Nat := if v = .tru then 1 else 0

/-- `sum3bits` (ALU.ts lines 199-215), translated verbatim including the
repeated `isHighImpedance(a)` tests in the computation of `numUnset`:
`numUnset = (isUnknown(a) || isHighImpedance(a) ? 1 : 0)
          + (isUnknown(b) || isHighImpedance(a) ? 1 : 0)
          + (isUnknown(c) || isHighImpedance(a) ? 1 : 0)`.
Returns the pair (sum bit, carry-out). -/
def sum3bits (a b c : LogicValue) : LogicValue × LogicValue :=
  let numUnset : Nat :=
    (if isUnknown a || isHighImpedance a then 1 else 0) +
    (if isUnknown b || isHighImpedance a then 1 else 0) +
    (if isUnknown c || isHighImpedance a then 1 else 0)
  let sum : Nat := asNumber a + asNumber b + asNumber c
  if numUnset = 0 then
    (if sum % 2 = 1 then .tru else .fls, if sum ≥ 2 then .tru else .fls)
  else if numUnset = 1 ∧ sum ≥ 2 then
    (.unk, .tru)
  else
    (.unk, .unk)

/-- The per-operand rule the spec states for one ripple-adder bit: the count
`U` of indeterminate contributing operands tests each of `a`, `b`, `c`
independently.  This is the claimed behaviour, written from the spec's words
(for comparison with the source's `sum3bits`). -/
def sum3bitsSpec (a b c : LogicValue) : LogicValue × LogicValue :=
  let numUnset : Nat :=
    (if isIndeterminate a then 1 else 0) +
    (if isIndeterminate b then 1 else 0) +
    (if isIndeterminate c then 1 else 0)
  let sum : Nat := asNumber a + asNumber b + asNumber c
  if numUnset = 0 then
    (if sum % 2 = 1 then .tru else .fls, if sum ≥ 2 then .tru else .fls)
  else if numUnset = 1 ∧ sum ≥ 2 then
    (.unk, .tru)
  else
    (.unk, .unk)

/-- The `add` branch of `doRecalcValue` (ALU.ts lines 216-222): ripple
addition; bit `i` is `sum3bits(prevCin, a[i], b[i])`, the running carry is
threaded through, and the final carry is the V output. -/
def rippleAdd (cin : LogicValue) : List LogicValue → List LogicValue →
    List LogicValue × LogicValue
  | a :: as_, b :: bs =>
    let sc := sum3bits cin a b
    let rest := rippleAdd sc.2 as_ bs
    (sc.1 :: rest.1, rest.2)
  | _, _ => ([], cin)

/-- `toInt` inside the `sub` branch (ALU.ts lines 228-239).  JS semantics:
the loop returns `undefined` (outer `none`) as soon as a bit `isUnknown`;
otherwise it accumulates `s += Number(v) * col`.  `Number` of the
`HighImpedance` sentinel (a non-numeric string) is `NaN`, which is absorbing;
the inner `none` models a `NaN` sum. -/
def toInt : List LogicValue → Option (Option Nat) :=
  go 1
where
  /-- `go col vs` folds the remaining bits with current column weight `col`. -/
  go (col : Nat) : List LogicValue → Option (Option Nat)
  | [] => some (some 0)
  | v :: vs =>
    if isUnknown v then none
    else
      match go (2 * col) vs with
      | none => none
      | some rest =>
        if isHighImpedance v then some none
        else some (rest.map (fun m => m + (if v = .tru then col else 0)))

/-- The 4 low bits of a natural number, least-significant first, as logic
values: models `(yInt >>> 0).toString(2).padStart(4, '0')` read back with
`y[i] = yBinStr[3 - i] === '1'` (ALU.ts lines 253-256) for `0 ≤ yInt ≤ 15`. -/
def toBits4 (n : Nat) : List LogicValue :=
  [ if n / 1 % 2 = 1 then .tru else .fls,
    if n / 2 % 2 = 1 then .tru else .fls,
    if n / 4 % 2 = 1 then .tru else .fls,
    if n / 8 % 2 = 1 then .tru else .fls ]

/-- The `sub` branch of `doRecalcValue` (ALU.ts lines 226-259).  When either
`toInt` is `undefined` the defaults (`y` all `Unknown`, `v` `Unknown`) are
kept.  When a sum is `NaN` (a `HighImpedance` bit slipped through
`toInt`'s `isUnknown` screen): `NaN < 0` is false, `NaN >>> 0` is `0`, so
`y` becomes `0000`, and `bInt > aInt` is false on `NaN`, so `v` is false. -/
def subBranch (a b : List LogicValue) : List LogicValue × LogicValue :=
  match toInt a, toInt b with
  | some aN, some bN =>
    match aN, bN with
    | some aInt, some bInt =>
      let yInt : Int := (aInt : Int) - (bInt : Int)
      let yInt : Int := if yInt < 0 then yInt + 16 else yInt
      (toBits4 yInt.toNat, if bInt > aInt then .tru else .fls)
    | _, _ => ([.fls, .fls, .fls, .fls], .fls)
  | _, _ => ([.unk, .unk, .unk, .unk], .unk)

/-- The `and` branch of `doRecalcValue` (ALU.ts lines 264-276): per bit,
false dominates, both-true gives true, anything else is `Unknown`. -/
def andBranch : List LogicValue → List LogicValue → List LogicValue
  | a :: as_, b :: bs =>
    (if a = .fls ∨ b = .fls then .fls
     else if a = .tru ∧ b = .tru then .tru
     else .unk) :: andBranch as_ bs
  | _, _ => []

/-- The `or` branch of `doRecalcValue` (ALU.ts lines 278-290): per bit,
true dominates, both-false gives false, anything else is `Unknown`. -/
def orBranch : List LogicValue → List LogicValue → List LogicValue
  | a :: as_, b :: bs =>
    (if a = .tru ∨ b = .tru then .tru
     else if a = .fls ∧ b = .fls then .fls
     else .unk) :: orBranch as_ bs
  | _, _ => []

/-- `allZeros` (ALU.ts lines 182-192): scans the result bits in order;
an `Unknown`/`HighImpedance` bit gives `Unknown`, a `true` bit gives
`false`, and if every bit is `false` the answer is `true`. -/
def allZeros : List LogicValue → LogicValue
  | [] => .tru
  | v :: vs =>
    if isUnknown v || isHighImpedance v then .unk
    else if v = .tru then .fls
    else allZeros vs

/-- The zero flag as characterised after correction: `true` iff every bit is
deterministically false; otherwise the first bit (in index order) that is not
false decides — `Unknown` if that bit is indeterminate, `false` if it is
true.  Written from the amended claim's words, for comparison with
`allZeros`. -/
def allZerosSpec (vs : List LogicValue) : LogicValue :=
  match vs.dropWhile (fun v => v = .fls) with
  | [] => .tru
  | v :: _ => if isIndeterminate v then .unk else .fls

/-- `doRecalcValue` of `ALU` (ALU.ts lines 170-295) as a function of the
input values: operand bit lists `a` and `b` (least-significant first),
opcode bits `op1`/`op0` and carry-in `cin`.  Returns `(S bits, V, Z)`. -/
def doRecalcValue (a b : List LogicValue) (op1 op0 cin : LogicValue) :
    List LogicValue × LogicValue × LogicValue :=
  match op op1 op0 with
  | none => ([.unk, .unk, .unk, .unk], .unk, .unk)
  | some o =>
    let yv : List LogicValue × LogicValue :=
      match o with
      | .add => rippleAdd cin a b
      | .sub => subBranch a b
      | .andOp => (andBranch a b, .fls)
      | .orOp => (orBranch a b, .fls)
    (yv.1, yv.2, allZeros yv.1)

end ALU

namespace RAM16by4

/-- `EdgeTrigger` from FlipflopOrLatch.ts.
Modelled from the spec (§3): the file is not in the source tree; the spec
defines the domain as {rising, falling}. -/
inductive EdgeTrigger where
  | rising
  | falling
deriving DecidableEq, Repr

/-- `Flipflop.isClockTrigger` from FlipflopOrLatch.ts.
Modelled from the spec (§4.4): the file is not in the source tree; the spec
states rising fires iff prevClock=false ∧ currClock=true, falling fires iff
prevClock=true ∧ currClock=false, and an indeterminate clock operand never
fires the trigger. -/
def isClockTrigger (trigger : EdgeTrigger) (prevClock clock : LogicValue) : Bool :=
  (trigger = .rising && prevClock = .fls && clock = .tru) ||
  (trigger = .falling && prevClock = .tru && clock = .fls)

/-- A word is 4 bits, least-significant first; the memory is 16 words. -/
abbrev Word := List LogicValue

/-- `RAMValue<4>`: the pair of the 16-word memory and the 4-bit output. -/
abbrev RAMValue := List Word × Word

/-- `RAM16by4.valueFilledWith` (part_000 lines 54-61): memory of 16 words
all filled with `v`, and an output filled with `v`. -/
def valueFilledWith (v : LogicValue) : RAMValue :=
  (List.replicate 16 (List.replicate 4 v), List.replicate 4 v)

/-- `RAM16by4.currentAddress` (part_000 lines 223-227), which decodes the 4
address bits through `displayValuesFromArray`.
Modelled from the spec: drawutils.ts is not in the source tree; per the spec
(§4.6, §4.4) the decoded address is `Unknown` (`none`) if any address bit is
indeterminate, else the unsigned value of the bits (least-significant
first). -/
def currentAddress (addrBits : List LogicValue) : Option Nat :=
  if addrBits.any (fun v => isUnknown v || isHighImpedance v) then none
  else some (addrBits.foldr (fun v acc => 2 * acc + (if v = .tru then 1 else 0)) 0)

/-- The fresh memory array built by the write path of `doRecalcValue`
(part_000 lines 208-215): entry `i` is the new data word at the written
address and the old word elsewhere. -/
def writeMem (mem : List Word) (a : Nat) (data : Word) : List Word :=
  (List.range 16).map (fun i => if i = a then data else mem.getD i (List.replicate 4 .fls))

/-- `RAM16by4.doRecalcValue` (part_000 lines 179-217) as a function of the
stored memory, the remembered previous clock `lastClock`, the configured
trigger, and the current input values.  Returns the new `RAMValue` together
with the new remembered clock (the source assigns `this._lastClock = clock`
only after the `clear` check). -/
def doRecalcValue (trigger : EdgeTrigger) (mem : List Word) (lastClock : LogicValue)
    (clock we clear : LogicValue) (data addrBits : List LogicValue) :
    RAMValue × LogicValue :=
  if clear = .tru then
    (valueFilledWith .fls, lastClock)
  else
    let addr := currentAddress addrBits
    let prevClock := lastClock
    if ¬(we = .tru) ∨ ¬(isClockTrigger trigger prevClock clock) then
      let out := match addr with
        | none => List.replicate 4 .unk
        | some a => mem.getD a (List.replicate 4 .fls)
      ((mem, out), clock)
    else
      match addr with
      | none => (valueFilledWith .unk, clock)
      | some a => ((writeMem mem a data, data), clock)

/-- The RAM recalculation as the amended claim states it: (1) `clear` first;
then, if no write is triggered (write-enable ≠ true or the clock transition
does not satisfy the trigger), an Unknown address gives an all-Unknown output
with memory unchanged and a known address reads the stored word; if a write
is triggered, an Unknown address fills the entire memory and the output with
Unknown, and a known address replaces the addressed word with the data bits,
which also become the output.  Written from the amended claim's words, for
comparison with `doRecalcValue`. -/
def doRecalcValueSpec (trigger : EdgeTrigger) (mem : List Word) (lastClock : LogicValue)
    (clock we clear : LogicValue) (data addrBits : List LogicValue) :
    RAMValue × LogicValue :=
  if clear = .tru then
    (valueFilledWith .fls, lastClock)
  else
    let willWrite := we = .tru ∧ isClockTrigger trigger lastClock clock
    match currentAddress addrBits with
    | none =>
      if willWrite then (valueFilledWith .unk, clock)
      else ((mem, List.replicate 4 .unk), clock)
    | some a =>
      if willWrite then ((writeMem mem a data, data), clock)
      else ((mem, mem.getD a (List.replicate 4 .fls)), clock)

/-- `toLogicValueRepr` from utils.ts restricted to single characters, as used
by `contentRepr`.
Modelled from the spec: utils.ts is not in the source tree; per the spec
(§4.6) each word is serialized as a 4-character bit string, with the four
logic values rendered as distinct characters ('0', '1', '?', 'Z'). -/
def toLogicValueRepr : LogicValue → Char
  | .fls => '0'
  | .tru => '1'
  | .unk => '?'
  | .hiZ => 'Z'

/-- `toLogicValueFromChar` from utils.ts.
Modelled from the spec: utils.ts is not in the source tree; the inverse of
`toLogicValueRepr`, with unrecognised characters read as `Unknown`. -/
def toLogicValueFromChar : Char → LogicValue
  | '0' => .fls
  | '1' => .tru
  | 'Z' => .hiZ
  | _ => .unk

/-- One cell of `RAM16by4.contentRepr` (part_000 line 138): the word's
characters in most-significant-first order
(`mem[addr].map(toLogicValueRepr).reverse().join("")`), a string modelled as
its list of characters. -/
def serCell (w : Word) : List Char := (w.map toLogicValueRepr).reverse

/-- The trimming test of `contentRepr` (part_000 line 142):
`cells[addr] === "0000"`. -/
def isZeroCell (c : List Char) : Bool := c = ['0', '0', '0', '0']

/-- The splice loop of `contentRepr` (part_000 lines 141-147), which walks
from the last cell backwards removing `"0000"` cells until a non-zero cell
is met: drop the longest all-zero suffix. -/
def trimmedCells (mem : List Word) : List (List Char) :=
  ((mem.map serCell).reverse.dropWhile isZeroCell).reverse

/-- `RAM16by4.contentRepr` (part_000 lines 135-149): every word is rendered
as its 4 characters in most-significant-first order, trailing `"0000"` cells
are removed from the end, and an empty list becomes `undefined` (`none`). -/
def contentRepr (mem : List Word) : Option (List (List Char)) :=
  if trimmedCells mem = [] then none else some (trimmedCells mem)

/-- The inner per-row loop of `RAM16by4.savedStateFrom` (part_000 lines
69-80): bit `j` of the row is read from character `len - 1 - j` of the saved
string; once the index underflows the remaining bits keep their default
`false`. -/
def rowFromChars (s : List Char) : Word :=
  (List.range 4).map (fun j =>
    if j < s.length then toLogicValueFromChar (s.getD (s.length - 1 - j) '0')
    else .fls)

/-- `RAM16by4.savedStateFrom` (part_000 lines 63-86) restricted to the saved
`content` field: a missing content gives an all-false memory; otherwise row
`i` is parsed from string `i` when present and is all-false beyond the saved
list.  The output is a copy of word 0. -/
def savedStateFrom (content : Option (List (List Char))) : RAMValue :=
  match content with
  | none => valueFilledWith .fls
  | some cells =>
    let mem := (List.range 16).map (fun i =>
      if h : i < cells.length then rowFromChars (cells.get ⟨i, h⟩)
      else List.replicate 4 .fls)
    (mem, mem.getD 0 (List.replicate 4 .fls))

end RAM16by4

namespace NodeOut

/-- The state of an output node (`NodeOut` in Node.ts): the computed value
`_value` and the optional forced value `_forceValue`. -/
structure State where
  computed : LogicValue
  forced : Option LogicValue
deriving DecidableEq, Repr, Fintype

/-- The `value` getter of `NodeBase` (Node.ts lines 85-87): the visible value
is the forced value when defined, else the computed value. -/
def visible (s : State) : LogicValue :=
  match s.forced with
  | some f => f
  | none => s.computed

/-- The `value` setter of `NodeBase` (Node.ts lines 89-95) followed by
`propagateNewValueIfNecessary` (lines 97-102): when the assigned value
differs from `_value`, the state is updated and, if the visible value
changed, `propagateNewValue` pushes the new visible value to every outgoing
wire.  The second component is `some v` when a propagation with value `v`
happened and `none` otherwise. -/
def setValue (s : State) (val : LogicValue) : State × Option LogicValue :=
  if val ≠ s.computed then
    let s2 : State := { s with computed := val }
    (s2, if visible s2 ≠ visible s then some (visible s2) else none)
  else
    (s, none)

/-- The `forceValue` setter of `NodeOut` (Node.ts lines 266-271): the forced
value is replaced unconditionally and `propagateNewValueIfNecessary` runs
against the previous visible value. -/
def setForceValue (s : State) (f : Option LogicValue) : State × Option LogicValue :=
  let s2 : State := { s with forced := f }
  (s2, if visible s2 ≠ visible s then some (visible s2) else none)

end NodeOut

namespace NodeIn

/-- The state of an input node (`NodeIn` in Node.ts): its current `_value`
and whether an incoming wire is attached.  Input node specs carry no `force`
key, so `_forceValue` stays `undefined` and the visible value is `_value`
itself. -/
structure State where
  value : LogicValue
  hasIncomingWire : Bool
deriving DecidableEq, Repr, Fintype

/-- A freshly constructed input node: `_value` is `false` (Node.ts line 20)
and no incoming wire is attached (line 202). -/
def init : State := { value := .fls, hasIncomingWire := false }

/-- The `value` setter of `NodeBase` as inherited by `NodeIn`: with no forced
value the visible value is `_value`, so a differing assignment updates the
state and triggers `propagateNewValue`, which calls the owner's
`setNeedsRecalc` (Node.ts lines 230-232).  The Boolean reports whether the
owner was notified. -/
def setValue (s : State) (val : LogicValue) : State × Bool :=
  if val ≠ s.value then ({ s with value := val }, true)
  else (s, false)

/-- The `incomingWire` setter of `NodeIn` (Node.ts lines 209-216): the wire
reference is stored, then the node's value is assigned `false` on detach
(`none`) and the start node's visible value on attach (`some v`).  Returns
the new state and whether the owner was notified to recalculate. -/
def setIncomingWire (s : State) (wire : Option LogicValue) : State × Bool :=
  let s1 : State := { s with hasIncomingWire := wire.isSome }
  match wire with
  | none => setValue s1 .fls
  | some v => setValue s1 v

/-- One external operation on an input node: attaching a wire whose start
node shows `v`, or detaching the wire. -/
inductive OpStep where
  | attach (v : LogicValue)
  | detach
deriving DecidableEq, Repr

/-- Running a sequence of attach/detach operations from a state. -/
def run (s : State) (ops : List OpStep) : State :=
  ops.foldl (fun s o =>
    match o with
    | .attach v => (setIncomingWire s (some v)).1
    | .detach => (setIncomingWire s none).1) s

end NodeIn

namespace Component

/-- The data of an output node relevant to serialization: its id and its
optional forced value (`OutputNodeRepr` carries `force` exactly when the
node's `forceValue` is defined). -/
structure OutNodeData where
  id : Nat
  forced : Option LogicValue
deriving DecidableEq, Repr

/-- One serialized node entry: either a bare id, or an `{id, force}` object
(only output nodes ever carry a force). -/
inductive EntryRepr where
  | bare (id : Nat)
  | withForce (id : Nat) (force : LogicValue)
deriving DecidableEq, Repr

/-- The value of an `id`/`in`/`out` field: a single entry (a one-element
array collapsed to the bare element) or an array of entries. -/
inductive FieldRepr where
  | one (e : EntryRepr)
  | many (es : List EntryRepr)
deriving DecidableEq, Repr

/-- `NodeIDsRepr`: the node-id part of a component's JSON.  No nodes ⇒ no
field; inputs only or outputs only ⇒ a single `id` field; both ⇒ separate
`in` and `out` fields. -/
inductive NodesRepr where
  | empty
  | onlyId (f : FieldRepr)
  | inOut (inField : FieldRepr) (outField : FieldRepr)
deriving DecidableEq, Repr

/-- `reprOne` inside `outNodeReprs` (Component.ts lines 254-260): a bare id
when the node has no forced value, else an `{id, force}` entry. -/
def outReprOne (n : OutNodeData) : EntryRepr :=
  match n.forced with
  | none => .bare n.id
  | some f => .withForce n.id f

/-- `inNodeReprs` (Component.ts lines 245-252): input nodes are serialized
as their ids, a single-element array collapsing to the bare element. -/
def inNodeReprs (ids : List Nat) : FieldRepr :=
  match ids with
  | [n] => .one (.bare n)
  | _ => .many (ids.map .bare)

/-- `outNodeReprs` (Component.ts lines 253-266): output nodes are serialized
by `outReprOne`, a single-element array collapsing to the bare element. -/
def outNodeReprs (outs : List OutNodeData) : FieldRepr :=
  match outs with
  | [n] => .one (outReprOne n)
  | _ => .many (outs.map outReprOne)

/-- `buildNodesRepr` (Component.ts lines 238-295): the compact node-id JSON
of a component with input node ids `ins` and output nodes `outs`. -/
def buildNodesRepr (ins : List Nat) (outs : List OutNodeData) : NodesRepr :=
  if ins.length ≠ 0 then
    if outs.length ≠ 0 then .inOut (inNodeReprs ins) (outNodeReprs outs)
    else .onlyId (inNodeReprs ins)
  else if outs.length ≠ 0 then .onlyId (outNodeReprs outs)
  else .empty

/-- The id of one entry (`isNumber(inRepr) ? inRepr : inRepr.id` in
`genInSpecs`, Component.ts lines 195-196). -/
def idOfEntry : EntryRepr → Nat
  | .bare n => n
  | .withForce n _ => n

/-- One entry back to an output spec (`isNumber(outRepr) ? { id: outRepr } :
{ id: outRepr.id, force: outRepr.force }` in `genOutSpecs`, Component.ts
lines 182-185). -/
def outSpecOfEntry : EntryRepr → OutNodeData
  | .bare n => ⟨n, none⟩
  | .withForce n f => ⟨n, some f⟩

/-- `genInSpecs` (Component.ts lines 194-204): every entry of the field
yields an input spec holding just the id. -/
def genInSpecs (f : FieldRepr) : List Nat :=
  match f with
  | .one e => [idOfEntry e]
  | .many es => es.map idOfEntry

/-- `genOutSpecs` (Component.ts lines 181-193): every entry of the field
yields an output spec holding the id and the optional force. -/
def genOutSpecs (f : FieldRepr) : List OutNodeData :=
  match f with
  | .one e => [outSpecOfEntry e]
  | .many es => es.map outSpecOfEntry

/-- `nodeSpecsFromRepr` (Component.ts lines 163-234) in the restoring case:
dispatches on the component's arities to find where the ids live in the
representation.  Shapes impossible for the given arities yield empty spec
lists (the source reaches them only through unchecked casts). -/
def nodeSpecsFromRepr (r : NodesRepr) (numInputs numOutputs : Nat) :
    List Nat × List OutNodeData :=
  if numInputs ≠ 0 then
    if numOutputs ≠ 0 then
      match r with
      | .inOut i o => (genInSpecs i, genOutSpecs o)
      | _ => ([], [])
    else
      match r with
      | .onlyId i => (genInSpecs i, [])
      | _ => ([], [])
  else if numOutputs ≠ 0 then
    match r with
    | .onlyId o => ([], genOutSpecs o)
    | _ => ([], [])
  else ([], [])

end Component

/-!  ## Theorems  -/

/-- C1: the ripple-adder bit rule fails when `HighImpedance` appears in an
operand position other than the first: with contributing operands
(carry-in = false, a-bit = HighImpedance, b-bit = false) the count of
indeterminate operands is 1, so the claim demands sum bit and carry-out both
Unknown, but `sum3bits` (which tests `isHighImpedance` on its first operand
three times) counts 0, treats the HighImpedance bit as 0 and returns
(false, false); dually, with (HighImpedance, true, true) the claim demands
(Unknown, true) but the source counts 3 indeterminate operands and returns
(Unknown, Unknown).  Through `doRecalcValue`, adding A = Z000 to B = 0000
with carry-in false yields S = 0000, V = false, Z = true instead of
Unknown everywhere. -/
theorem C1_sum3bits_tests_first_operand_thrice :
    ALU.sum3bits .fls .hiZ .fls = (.fls, .fls) ∧
    ALU.sum3bitsSpec .fls .hiZ .fls = (.unk, .unk) ∧
    ALU.sum3bits .hiZ .tru .tru = (.unk, .unk) ∧
    ALU.sum3bitsSpec .hiZ .tru .tru = (.unk, .tru) ∧
    ALU.doRecalcValue [.hiZ, .fls, .fls, .fls] [.fls, .fls, .fls, .fls] .fls .fls .fls
      = ([.fls, .fls, .fls, .fls], .fls, .tru) ∧
    (LogicValue.fls ≠ LogicValue.unk) := by
  refine ⟨rfl, rfl, rfl, rfl, rfl, by decide⟩

/-- C3: the subtraction branch does not make all outputs Unknown when an
operand contains a `HighImpedance` bit: `toInt` screens only `Unknown` bits,
so with A = Z000 (bit 0 HighImpedance) and B = 0000 the numeric coercion
produces a NaN sum and the outputs are S = 0000, V = false, Z = true rather
than all Unknown.  (For fully known operands the wraparound result is
correct, as the spec's own test vector sub(0001, 0010) = 1111 with borrow
shows.) -/
theorem C3_sub_highImpedance_is_not_screened :
    ALU.doRecalcValue [.hiZ, .fls, .fls, .fls] [.fls, .fls, .fls, .fls] .fls .tru .fls
      = ([.fls, .fls, .fls, .fls], .fls, .tru) ∧
    (([.fls, .fls, .fls, .fls], LogicValue.fls, LogicValue.tru) ≠
      (([.unk, .unk, .unk, .unk] : List LogicValue), LogicValue.unk, LogicValue.unk)) ∧
    ALU.doRecalcValue [.tru, .fls, .fls, .fls] [.fls, .tru, .fls, .fls] .fls .tru .fls
      = ([.tru, .tru, .tru, .tru], .tru, .fls) ∧
    ALU.doRecalcValue [.unk, .fls, .fls, .fls] [.fls, .fls, .fls, .fls] .fls .tru .fls
      = ([.unk, .unk, .unk, .unk], .unk, .unk) := by
  refine ⟨rfl, by decide, rfl, rfl⟩

/-- C7: the 2-bit opcode (high bit `op1`, low bit `op0`) decodes as 00 add,
01 sub, 10 or, 11 and; an indeterminate opcode bit makes the decoded
operation Unknown, and an Unknown operation makes every output of
`doRecalcValue` Unknown. -/
theorem C7_opcode_selection :
    ALU.op .fls .fls = some .add ∧
    ALU.op .fls .tru = some .sub ∧
    ALU.op .tru .fls = some .orOp ∧
    ALU.op .tru .tru = some .andOp ∧
    (∀ op1 op0 : LogicValue, isIndeterminate op1 ∨ isIndeterminate op0 →
      ALU.op op1 op0 = none) ∧
    (∀ (a b : List LogicValue) (op1 op0 cin : LogicValue), ALU.op op1 op0 = none →
      ALU.doRecalcValue a b op1 op0 cin = ([.unk, .unk, .unk, .unk], .unk, .unk)) := by
  refine ⟨rfl, rfl, rfl, rfl, by decide, ?_⟩
  intro a b op1 op0 cin h
  simp [ALU.doRecalcValue, h]

/-- Witness for C7: instantiated at the Unknown low opcode bit. -/
theorem C7_opcode_selection_witness :
    ALU.op .fls .unk = none ∧
    ALU.doRecalcValue [.tru, .tru, .tru, .tru] [.fls, .fls, .fls, .fls] .fls .unk .tru
      = ([.unk, .unk, .unk, .unk], .unk, .unk) :=
  ⟨C7_opcode_selection.2.2.2.2.1 .fls .unk (by decide),
   C7_opcode_selection.2.2.2.2.2 [.tru, .tru, .tru, .tru] [.fls, .fls, .fls, .fls]
     .fls .unk .tru (C7_opcode_selection.2.2.2.2.1 .fls .unk (by decide))⟩

/-- C8 counterexample: the claim says any Unknown result bit makes the zero
flag Unknown, but for the `or` operation on A = [true, Unknown, false,
false] and B = 0000 the result has a true bit before the Unknown bit and
`allZeros` answers false, not Unknown. -/
theorem C8_counterexample_true_bit_shadows_unknown :
    ALU.doRecalcValue [.tru, .unk, .fls, .fls] [.fls, .fls, .fls, .fls] .tru .fls .fls
      = ([.tru, .unk, .fls, .fls], .fls, .fls) ∧
    ALU.allZeros [.tru, .unk, .fls, .fls] = .fls ∧
    (LogicValue.fls ≠ LogicValue.unk) := by
  refine ⟨rfl, rfl, by decide⟩

/-- Helper: `allZeros` agrees with its first-non-false-bit characterisation. -/
theorem allZeros_eq_allZerosSpec (vs : List LogicValue) :
    ALU.allZeros vs = ALU.allZerosSpec vs := by
  induction vs with
  | nil => rfl
  | cons v vs ih =>
    cases v <;> simp_all [ALU.allZeros, ALU.allZerosSpec, List.dropWhile, isUnknown,
      isHighImpedance, isIndeterminate]

/-- C8 (amended): the zero flag output of every ALU recalculation is `true`
iff all result bits are deterministically false, and otherwise is decided by
the first (lowest-index) result bit that is not false — Unknown if that bit
is indeterminate, false if it is true. -/
theorem C8_zero_flag_first_nonfalse_bit :
    (∀ vs : List LogicValue, ALU.allZeros vs = ALU.allZerosSpec vs) ∧
    (∀ (a b : List LogicValue) (op1 op0 cin : LogicValue),
      (ALU.doRecalcValue a b op1 op0 cin).2.2 =
        ALU.allZerosSpec (ALU.doRecalcValue a b op1 op0 cin).1) := by
  refine ⟨allZeros_eq_allZerosSpec, ?_⟩
  intro a b op1 op0 cin
  cases h : ALU.op op1 op0 with
  | none => simp [ALU.doRecalcValue, h]; rfl
  | some o => simp [ALU.doRecalcValue, h, allZeros_eq_allZerosSpec]

/-- C4: an output node's visible value is the forced value when one is
defined and the computed value otherwise; and both the computed-value setter
and the forced-value setter propagate to the outgoing wires exactly when the
operation changed the visible value (and then propagate the new visible
value). -/
theorem C4_output_node_visible_value_and_propagation :
    (∀ s : NodeOut.State, NodeOut.visible s =
      (match s.forced with | some f => f | none => s.computed)) ∧
    (∀ (s : NodeOut.State) (val : LogicValue),
      (NodeOut.setValue s val).2 =
        (if NodeOut.visible (NodeOut.setValue s val).1 = NodeOut.visible s then none
         else some (NodeOut.visible (NodeOut.setValue s val).1))) ∧
    (∀ (s : NodeOut.State) (f : Option LogicValue),
      (NodeOut.setForceValue s f).2 =
        (if NodeOut.visible (NodeOut.setForceValue s f).1 = NodeOut.visible s then none
         else some (NodeOut.visible (NodeOut.setForceValue s f).1))) := by
  refine ⟨fun s => rfl, ?_, ?_⟩
  · intro s val
    by_cases h : val = s.computed
    · simp [NodeOut.setValue, h]
    · simp only [NodeOut.setValue, if_neg, h, ne_eq, not_false_eq_true, if_true]
      by_cases hv : NodeOut.visible { s with computed := val } = NodeOut.visible s <;>
        simp [hv]
  · intro s f
    by_cases hv : NodeOut.visible { s with forced := f } = NodeOut.visible s <;>
      simp [NodeOut.setForceValue, hv]

/-- Helper: one attach/detach step establishes the invariant that an input
node without an incoming wire holds the value false. -/
theorem NodeIn.step_no_wire_false (s : NodeIn.State) (w : Option LogicValue) :
    (NodeIn.setIncomingWire s w).1.hasIncomingWire = false →
    (NodeIn.setIncomingWire s w).1.value = .fls := by
  rcases s with ⟨v, hw⟩
  rcases w with _ | wv
  · cases v <;> cases hw <;> decide
  · cases v <;> cases wv <;> cases hw <;> decide

/-- Helper: any attach/detach run preserves the invariant that an input node
without an incoming wire holds the value false. -/
theorem NodeIn.run_preserves_no_wire_false :
    ∀ (ops : List NodeIn.OpStep) (s : NodeIn.State),
      (s.hasIncomingWire = false → s.value = .fls) →
      ((NodeIn.run s ops).hasIncomingWire = false → (NodeIn.run s ops).value = .fls) := by
  intro ops
  induction ops with
  | nil => intro s hs; exact hs
  | cons o ops ih =>
    intro s hs
    cases o with
    | attach v => exact ih _ (NodeIn.step_no_wire_false s (some v))
    | detach => exact ih _ (NodeIn.step_no_wire_false s none)

/-- C5: a freshly created input node has value false and no incoming wire;
attaching a wire immediately sets the node's value to the start node's
visible value and notifies the owner iff that changed the value; detaching
reverts the value to false and notifies the owner iff the value was not
already false; and in any state reachable by attach/detach operations, a
node without an incoming wire holds the value false. -/
theorem C5_input_node_mirrors_start_node :
    NodeIn.init.value = .fls ∧
    NodeIn.init.hasIncomingWire = false ∧
    (∀ (s : NodeIn.State) (v : LogicValue),
      (NodeIn.setIncomingWire s (some v)).1.value = v ∧
      (NodeIn.setIncomingWire s (some v)).1.hasIncomingWire = true ∧
      (NodeIn.setIncomingWire s (some v)).2 = decide (v ≠ s.value)) ∧
    (∀ s : NodeIn.State,
      (NodeIn.setIncomingWire s none).1.value = .fls ∧
      (NodeIn.setIncomingWire s none).1.hasIncomingWire = false ∧
      (NodeIn.setIncomingWire s none).2 = decide (s.value ≠ .fls)) ∧
    (∀ ops : List NodeIn.OpStep,
      (NodeIn.run NodeIn.init ops).hasIncomingWire = false →
      (NodeIn.run NodeIn.init ops).value = .fls) := by
  refine ⟨rfl, rfl, ?_, ?_, ?_⟩
  · intro s v
    rcases s with ⟨sv, sw⟩
    cases sv <;> cases v <;> cases sw <;> decide
  · intro s
    rcases s with ⟨sv, sw⟩
    cases sv <;> cases sw <;> decide
  · intro ops
    exact NodeIn.run_preserves_no_wire_false ops NodeIn.init (fun _ => rfl)

/-- Witness for C5: instantiated at the operation sequence
attach-true-then-detach, whose final state has no wire and value false. -/
theorem C5_input_node_mirrors_start_node_witness :
    (NodeIn.run NodeIn.init [.attach .tru, .detach]).hasIncomingWire = false ∧
    (NodeIn.run NodeIn.init [.attach .tru, .detach]).value = .fls :=
  ⟨by decide,
   C5_input_node_mirrors_start_node.2.2.2.2 [.attach .tru, .detach] (by decide)⟩

/-- Helper: parsing an input-node field built from a list of ids recovers
that list. -/
theorem genIn_inNodeReprs : ∀ ins : List Nat,
    Component.genInSpecs (Component.inNodeReprs ins) = ins
  | [] => rfl
  | [_] => rfl
  | n1 :: n2 :: rest => by
    have : Component.idOfEntry ∘ Component.EntryRepr.bare = id := funext fun _ => rfl
    simp [Component.inNodeReprs, Component.genInSpecs, List.map_map, this]
    exact ⟨rfl, rfl⟩

/-- Helper: parsing an output-node field built from a list of output specs
recovers that list. -/
theorem genOut_outNodeReprs : ∀ outs : List Component.OutNodeData,
    Component.genOutSpecs (Component.outNodeReprs outs) = outs
  | [] => rfl
  | [o] => by
    rcases o with ⟨i, _ | f⟩ <;>
      simp [Component.outNodeReprs, Component.genOutSpecs, Component.outReprOne,
        Component.outSpecOfEntry]
  | o1 :: o2 :: rest => by
    simp only [Component.outNodeReprs, Component.genOutSpecs, List.map_map]
    have : Component.outSpecOfEntry ∘ Component.outReprOne = id := by
      funext n
      rcases n with ⟨i, _ | f⟩ <;>
        simp [Component.outReprOne, Component.outSpecOfEntry]
    simp [this]

/-- C9: the compact node-id scheme.  Round trip: rebuilding node specs from
the serialized representation of `ins` input ids and `outs` output nodes
(with the matching arities) recovers them exactly.  A `force` entry is
emitted for an output node iff its forced value is defined.  A one-element
array collapses to the bare element, inputs-only and outputs-only components
use a single `id` field, components with both use separate `in`/`out`
fields, and a component with no nodes has no id field. -/
theorem C9_compact_node_id_scheme :
    (∀ (ins : List Nat) (outs : List Component.OutNodeData),
      Component.nodeSpecsFromRepr (Component.buildNodesRepr ins outs)
        ins.length outs.length = (ins, outs)) ∧
    (∀ n : Component.OutNodeData,
      (n.forced = none ∧ Component.outReprOne n = .bare n.id) ∨
      (∃ f, n.forced = some f ∧ Component.outReprOne n = .withForce n.id f)) ∧
    (∀ i : Nat, Component.inNodeReprs [i] = .one (.bare i)) ∧
    (∀ o : Component.OutNodeData, Component.outNodeReprs [o] = .one (Component.outReprOne o)) ∧
    (∀ (ins : List Nat) (outs : List Component.OutNodeData), ins ≠ [] → outs ≠ [] →
      Component.buildNodesRepr ins outs =
        .inOut (Component.inNodeReprs ins) (Component.outNodeReprs outs)) ∧
    (∀ ins : List Nat, ins ≠ [] →
      Component.buildNodesRepr ins [] = .onlyId (Component.inNodeReprs ins)) ∧
    (∀ outs : List Component.OutNodeData, outs ≠ [] →
      Component.buildNodesRepr [] outs = .onlyId (Component.outNodeReprs outs)) ∧
    Component.buildNodesRepr [] [] = .empty := by
  refine ⟨?_, ?_, fun i => rfl, fun o => rfl, ?_, ?_, ?_, rfl⟩
  · intro ins outs
    rcases ins with _ | ⟨i, ins2⟩ <;> rcases outs with _ | ⟨o, outs2⟩ <;>
      simp [Component.buildNodesRepr, Component.nodeSpecsFromRepr,
        genIn_inNodeReprs, genOut_outNodeReprs]
  · intro n
    rcases n with ⟨i, _ | f⟩
    · exact Or.inl ⟨rfl, rfl⟩
    · exact Or.inr ⟨f, rfl, rfl⟩
  · intro ins outs hi ho
    simp [Component.buildNodesRepr, List.length_eq_zero, hi, ho]
  · intro ins hi
    simp [Component.buildNodesRepr, List.length_eq_zero, hi]
  · intro outs ho
    simp [Component.buildNodesRepr, List.length_eq_zero, ho]

/-- Witness for C9: instantiated at one input node and one forced output
node. -/
theorem C9_compact_node_id_scheme_witness :
    Component.buildNodesRepr [3] [⟨7, some .tru⟩] =
      .inOut (Component.inNodeReprs [3]) (Component.outNodeReprs [⟨7, some .tru⟩]) ∧
    Component.buildNodesRepr [3] [] = .onlyId (Component.inNodeReprs [3]) ∧
    Component.buildNodesRepr [] [⟨7, some .tru⟩] =
      .onlyId (Component.outNodeReprs [⟨7, some .tru⟩]) :=
  ⟨C9_compact_node_id_scheme.2.2.2.2.1 [3] [⟨7, some .tru⟩] (by decide) (by simp),
   C9_compact_node_id_scheme.2.2.2.2.2.1 [3] (by decide),
   C9_compact_node_id_scheme.2.2.2.2.2.2.1 [⟨7, some .tru⟩] (by simp)⟩

/-- C2 counterexample: with clear false, write-enable true, a rising clock
edge and an Unknown address bit, the recalculation replaces the entire
(previously all-false) stored memory by all-Unknown words: an Unknown
address does modify stored memory, contradicting the claim's priority
clause (2) and its final sentence. -/
theorem C2_counterexample_unknown_address_write :
    RAM16by4.currentAddress [.unk, .fls, .fls, .fls] = none ∧
    (RAM16by4.doRecalcValue .rising (List.replicate 16 (List.replicate 4 .fls)) .fls
        .tru .tru .fls (List.replicate 4 .fls) [.unk, .fls, .fls, .fls]).1.1
      = List.replicate 16 (List.replicate 4 .unk) ∧
    List.replicate 16 (List.replicate 4 LogicValue.unk) ≠
      List.replicate 16 (List.replicate 4 LogicValue.fls) := by
  refine ⟨rfl, by decide, by decide⟩

/-- C2 (amended): the RAM recalculation equals the amended priority order:
(1) clear zeroes memory and output; otherwise, when no write is triggered
(write-enable ≠ true or no matching clock edge), an Unknown address gives an
all-Unknown output with memory unchanged and a known address reads the
stored word; when a write is triggered, a known address replaces the
addressed word with the data bits (which become the output) while an
Unknown address fills the entire memory and the output with Unknown. -/
theorem C2_ram_priority_order :
    ∀ (trigger : RAM16by4.EdgeTrigger) (mem : List RAM16by4.Word)
      (lastClock clock we clear : LogicValue) (data addrBits : List LogicValue),
      RAM16by4.doRecalcValue trigger mem lastClock clock we clear data addrBits =
      RAM16by4.doRecalcValueSpec trigger mem lastClock clock we clear data addrBits := by
  intro trigger mem lastClock clock we clear data addrBits
  unfold RAM16by4.doRecalcValue RAM16by4.doRecalcValueSpec
  by_cases hc : clear = .tru
  · simp [hc]
  · simp only [hc, if_false]
    by_cases hw : we = .tru ∧ RAM16by4.isClockTrigger trigger lastClock clock = true
    · cases h : RAM16by4.currentAddress addrBits <;>
        simp [h, hw, hw.1, hw.2]
    · rw [Decidable.not_and_iff_or_not] at hw
      cases h : RAM16by4.currentAddress addrBits <;>
        rcases hw with hw | hw <;>
          simp [h, hw]

/-- C10: while the clear input is true, a recalculation returns the all-zero
state and leaves the remembered previous clock exactly as it was (the
`_lastClock` update is skipped), for every stored memory, remembered clock
and input combination. -/
theorem C10_clear_skips_clock_tracking :
    ∀ (trigger : RAM16by4.EdgeTrigger) (mem : List RAM16by4.Word)
      (lastClock clock we clear : LogicValue) (data addrBits : List LogicValue),
      clear = .tru →
      RAM16by4.doRecalcValue trigger mem lastClock clock we clear data addrBits =
        (RAM16by4.valueFilledWith .fls, lastClock) := by
  intro trigger mem lastClock clock we clear data addrBits hc
  simp [RAM16by4.doRecalcValue, hc]

/-- Witness for C10: instantiated with clear true during a rising edge that
would otherwise write, with the remembered clock staying Unknown. -/
theorem C10_clear_skips_clock_tracking_witness :
    RAM16by4.doRecalcValue .rising (List.replicate 16 (List.replicate 4 .tru)) .unk
        .tru .tru .tru (List.replicate 4 .tru) (List.replicate 4 .fls)
      = (RAM16by4.valueFilledWith .fls, .unk) :=
  C10_clear_skips_clock_tracking .rising (List.replicate 16 (List.replicate 4 .tru))
    .unk .tru .tru .tru (List.replicate 4 .tru) (List.replicate 4 .fls) rfl

/-- Helper: the character codec is a retraction of the serialization codec. -/
theorem fromChar_toRepr (v : LogicValue) :
    RAM16by4.toLogicValueFromChar (RAM16by4.toLogicValueRepr v) = v := by
  cases v <;> rfl

/-- Helper: parsing a serialized 4-bit word back recovers the word. -/
theorem rowFromChars_serCell (w : RAM16by4.Word) (hw : w.length = 4) :
    RAM16by4.rowFromChars (RAM16by4.serCell w) = w := by
  rcases w with _ | ⟨a, _ | ⟨b, _ | ⟨c, _ | ⟨d, _ | ⟨e, t⟩⟩⟩⟩⟩ <;>
    simp only [List.length_nil, List.length_cons] at hw <;> try omega
  cases a <;> cases b <;> cases c <;> cases d <;> rfl

/-- Helper: a 4-bit word serializes to `"0000"` iff it is all false. -/
theorem serCell_eq_zero_iff (w : RAM16by4.Word) (hw : w.length = 4) :
    RAM16by4.isZeroCell (RAM16by4.serCell w) = true ↔
      w = List.replicate 4 LogicValue.fls := by
  rcases w with _ | ⟨a, _ | ⟨b, _ | ⟨c, _ | ⟨d, _ | ⟨e, t⟩⟩⟩⟩⟩ <;>
    simp only [List.length_nil, List.length_cons] at hw <;> try omega
  cases a <;> cases b <;> cases c <;> cases d <;> decide

/-- Helper: any list is its reverse-trimmed part followed by the trimmed-off
suffix. -/
theorem trim_split {α : Type} (p : α → Bool) (l : List α) :
    (l.reverse.dropWhile p).reverse ++ (l.reverse.takeWhile p).reverse = l := by
  calc (l.reverse.dropWhile p).reverse ++ (l.reverse.takeWhile p).reverse
      = (l.reverse.takeWhile p ++ l.reverse.dropWhile p).reverse := by
        rw [List.reverse_append]
    _ = l.reverse.reverse := by rw [List.takeWhile_append_dropWhile]
    _ = l := l.reverse_reverse

/-- C6: serializing a 16-word RAM memory (4 bits per word) with
`contentRepr` and loading the result back with `savedStateFrom` yields
exactly the original memory: trimmed trailing all-zero words are
reconstructed as zero and every surviving word round-trips through its
4-character string. -/
theorem C6_ram_content_roundtrip :
    ∀ mem : List RAM16by4.Word, mem.length = 16 → (∀ w ∈ mem, w.length = 4) →
      (RAM16by4.savedStateFrom (RAM16by4.contentRepr mem)).1 = mem := by
  intro mem hlen hw
  have hsplit : RAM16by4.trimmedCells mem ++
      ((mem.map RAM16by4.serCell).reverse.takeWhile RAM16by4.isZeroCell).reverse =
      mem.map RAM16by4.serCell :=
    trim_split RAM16by4.isZeroCell (mem.map RAM16by4.serCell)
  have hcelllen : (mem.map RAM16by4.serCell).length = 16 := by simp [hlen]
  have hsuffix : ∀ c ∈ ((mem.map RAM16by4.serCell).reverse.takeWhile RAM16by4.isZeroCell).reverse,
      RAM16by4.isZeroCell c = true :=
    fun c hc => List.mem_takeWhile_imp (List.mem_reverse.mp hc)
  by_cases hemp : RAM16by4.trimmedCells mem = []
  · unfold RAM16by4.contentRepr
    rw [if_pos hemp]
    rw [hemp, List.nil_append] at hsplit
    show List.replicate 16 (List.replicate 4 LogicValue.fls) = mem
    refine List.ext_getElem (by simp [hlen]) ?_
    intro i h1 h2
    rw [List.getElem_replicate]
    have hic : i < (mem.map RAM16by4.serCell).length := by rw [hcelllen]; omega
    have hmem : (mem.map RAM16by4.serCell)[i] ∈
        ((mem.map RAM16by4.serCell).reverse.takeWhile RAM16by4.isZeroCell).reverse := by
      rw [hsplit]; exact List.getElem_mem hic
    have hzero := hsuffix _ hmem
    rw [List.getElem_map] at hzero
    have hw4 : mem[i].length = 4 := hw _ (List.getElem_mem h2)
    exact ((serCell_eq_zero_iff _ hw4).mp hzero).symm
  · unfold RAM16by4.contentRepr
    rw [if_neg hemp]
    show ((List.range 16).map fun i =>
      if h : i < (RAM16by4.trimmedCells mem).length
      then RAM16by4.rowFromChars ((RAM16by4.trimmedCells mem).get ⟨i, h⟩)
      else List.replicate 4 LogicValue.fls) = mem
    refine List.ext_getElem (by simp [hlen]) ?_
    intro i h1 h2
    have hi16 : i < 16 := by simpa using h1
    have hic : i < (mem.map RAM16by4.serCell).length := by rw [hcelllen]; omega
    rw [List.getElem_map, List.getElem_range]
    have hw4 : mem[i].length = 4 := hw _ (List.getElem_mem h2)
    by_cases hi : i < (RAM16by4.trimmedCells mem).length
    · rw [dif_pos hi]
      have hopt : (RAM16by4.trimmedCells mem)[i]? = (mem.map RAM16by4.serCell)[i]? := by
        conv_rhs => rw [← hsplit]
        rw [List.getElem?_append_left hi]
      rw [List.getElem?_eq_getElem hi, List.getElem?_eq_getElem hic] at hopt
      have htr := Option.some.inj hopt
      rw [List.getElem_map] at htr
      rw [List.get_eq_getElem, htr]
      exact rowFromChars_serCell _ hw4
    · rw [dif_neg hi]
      have hk : (RAM16by4.trimmedCells mem).length ≤ i := by omega
      have hsufflen : i - (RAM16by4.trimmedCells mem).length <
          ((mem.map RAM16by4.serCell).reverse.takeWhile RAM16by4.isZeroCell).reverse.length := by
        rw [← hsplit, List.length_append] at hic
        omega
      have hopt : (mem.map RAM16by4.serCell)[i]? =
          ((mem.map RAM16by4.serCell).reverse.takeWhile RAM16by4.isZeroCell).reverse[
            i - (RAM16by4.trimmedCells mem).length]? := by
        conv_lhs => rw [← hsplit]
        rw [List.getElem?_append_right hk]
      rw [List.getElem?_eq_getElem hic, List.getElem?_eq_getElem hsufflen] at hopt
      have hval := Option.some.inj hopt
      have hmem : (mem.map RAM16by4.serCell)[i] ∈
          ((mem.map RAM16by4.serCell).reverse.takeWhile RAM16by4.isZeroCell).reverse := by
        rw [hval]
        exact List.getElem_mem hsufflen
      have hzero := hsuffix _ hmem
      rw [List.getElem_map] at hzero
      exact ((serCell_eq_zero_iff _ hw4).mp hzero).symm

/-- Witness for C6: instantiated at a memory whose word 0 holds the four
distinct logic values and whose 15 remaining words are zero (so the
serialization trims them all). -/
theorem C6_ram_content_roundtrip_witness :
    ([.tru, .unk, .hiZ, .fls] :: List.replicate 15 (List.replicate 4 LogicValue.fls)).length
        = 16 ∧
    (RAM16by4.savedStateFrom (RAM16by4.contentRepr
        ([.tru, .unk, .hiZ, .fls] :: List.replicate 15 (List.replicate 4 LogicValue.fls)))).1 =
      [.tru, .unk, .hiZ, .fls] :: List.replicate 15 (List.replicate 4 LogicValue.fls) :=
  ⟨by decide,
   C6_ram_content_roundtrip
     ([.tru, .unk, .hiZ, .fls] :: List.replicate 15 (List.replicate 4 LogicValue.fls))
     (by decide) (by decide)⟩
